import Mathlib

/-!
Verification of the transaction codec and hashing core of the
`cashweb-bitcoin` crate (`src/transaction/mod.rs` of the
cashweb-backends repository).

The `Transaction` type, its `Encodable`/`Decodable` implementations,
`SignatureHashType`, `signature_hash`, `transaction_hash(_rev)` and
`transaction_id(_rev)` are translated directly from the source file.
The sibling modules that the source file uses (`var_int`, `script`,
`outpoint`, `input`, `output`, `merkle` and the SHA-256 primitive of
the `ring` crate) are not part of the visible sources; they are
modelled from the design document, as marked in their doc comments.

Bytes are modelled as `Nat` (values `< 256` when produced by an
encoder), buffers as `List Nat`.  A Rust decoder over a `Buf` cursor
becomes a function `List Nat → Except E (α × List Nat)` returning the
decoded value and the remaining suffix.  A Rust `panic!`/`unreachable!`
is an explicit `panicked` result.
-/

/-- Little-endian encoding of `v` on `w` bytes (the model of
`put_u16_le` / `put_u32_le` / `put_u64_le`). -/
def natToLE : Nat → Nat → List Nat
  | 0, _ => []
  | w + 1, v => v % 256 :: natToLE w (v / 256)

/-- Value of a little-endian byte list (the model of
`get_u16_le` / `get_u32_le` / `get_u64_le` on the bytes read). -/
def leToNat : List Nat → Nat
  | [] => 0
  | b :: bs => b + 256 * leToNat bs

/-- Big-endian encoding of `v` on `w` bytes (used by SHA-256). -/
def natToBE (w v : Nat) : List Nat := (natToLE w v).reverse

namespace SHA256

/-! Modelled from the spec: the SHA-256 primitive used by the source
through `ring::digest` and `merkle::sha256d` is not part of the visible
sources; it is modelled here directly from FIPS 180-4.  Words are `Nat`
values kept below `2^32`. -/

def add32 (a b : Nat) : Nat := (a + b) % 4294967296

/-- Rotation of a 32-bit word to the right by `n`, written with division
and remainder. -/
def rotr (n x : Nat) : Nat := (x / 2 ^ n + x % 2 ^ n * 2 ^ (32 - n)) % 4294967296

/-- Logical right shift. -/
def shr (n x : Nat) : Nat := x / 2 ^ n

def xor3 (a b c : Nat) : Nat := Nat.xor (Nat.xor a b) c

def bigSigma0 (x : Nat) : Nat := xor3 (rotr 2 x) (rotr 13 x) (rotr 22 x)
def bigSigma1 (x : Nat) : Nat := xor3 (rotr 6 x) (rotr 11 x) (rotr 25 x)
def smallSigma0 (x : Nat) : Nat := xor3 (rotr 7 x) (rotr 18 x) (shr 3 x)
def smallSigma1 (x : Nat) : Nat := xor3 (rotr 17 x) (rotr 19 x) (shr 10 x)

def ch (x y z : Nat) : Nat := Nat.xor (Nat.land x y) (Nat.land (Nat.xor x 4294967295) z)
def maj (x y z : Nat) : Nat := Nat.xor (Nat.xor (Nat.land x y) (Nat.land x z)) (Nat.land y z)

/-- The sixty-four round constants of FIPS 180-4, in decimal. -/
def K : List Nat :=
  [1116352408, 1899447441, 3049323471, 3921009573, 961987163, 1508970993,
   2453635748, 2870763221, 3624381080, 310598401, 607225278, 1426881987,
   1925078388, 2162078206, 2614888103, 3248222580, 3835390401, 4022224774,
   264347078, 604807628, 770255983, 1249150122, 1555081692, 1996064986,
   2554220882, 2821834349, 2952996808, 3210313671, 3336571891, 3584528711,
   113926993, 338241895, 666307205, 773529912, 1294757372, 1396182291,
   1695183700, 1986661051, 2177026350, 2456956037, 2730485921, 2820302411,
   3259730800, 3345764771, 3516065817, 3600352804, 4094571909, 275423344,
   430227734, 506948616, 659060556, 883997877, 958139571, 1322822218,
   1537002063, 1747873779, 1955562222, 2024104815, 2227730452, 2361852424,
   2428436474, 2756734187, 3204031479, 3329325298]

/-- The eight initial hash words, in decimal. -/
def H0 : List Nat :=
  [1779033703, 3144134277, 1013904242, 2773480762,
   1359893119, 2600822924, 528734635, 1541459225]

/-- Group a 64-byte block into sixteen big-endian 32-bit words. -/
def bytesToWordsBE : List Nat → List Nat
  | a :: b :: c :: d :: rest => (((a * 256 + b) * 256 + c) * 256 + d) :: bytesToWordsBE rest
  | _ => []

/-- Extend the message schedule, keeping the words most-recent-first. -/
def scheduleRev : Nat → List Nat → List Nat
  | 0, ws => ws
  | n + 1, ws =>
      let w2 := ws.getD 1 0
      let w7 := ws.getD 6 0
      let w15 := ws.getD 14 0
      let w16 := ws.getD 15 0
      scheduleRev n (add32 (add32 (smallSigma1 w2) w7) (add32 (smallSigma0 w15) w16) :: ws)

/-- The full 64-word message schedule of a block. -/
def schedule (blockWords : List Nat) : List Nat :=
  (scheduleRev 48 blockWords.reverse).reverse

/-- Working state of the compression function. -/
structure St where
  a : Nat
  b : Nat
  c : Nat
  d : Nat
  e : Nat
  f : Nat
  g : Nat
  h : Nat

/-- One compression round. -/
def round (st : St) (kw : Nat × Nat) : St :=
  let t1 := add32 st.h (add32 (bigSigma1 st.e) (add32 (ch st.e st.f st.g) (add32 kw.1 kw.2)))
  let t2 := add32 (bigSigma0 st.a) (maj st.a st.b st.c)
  ⟨add32 t1 t2, st.a, st.b, st.c, add32 st.d t1, st.e, st.f, st.g⟩

/-- Compress one 64-byte block into the running hash. -/
def compress (h : List Nat) (block : List Nat) : List Nat :=
  let ws := schedule (bytesToWordsBE block)
  let st0 : St := ⟨h.getD 0 0, h.getD 1 0, h.getD 2 0, h.getD 3 0,
                   h.getD 4 0, h.getD 5 0, h.getD 6 0, h.getD 7 0⟩
  let st := (K.zip ws).foldl round st0
  [add32 st0.a st.a, add32 st0.b st.b, add32 st0.c st.c, add32 st0.d st.d,
   add32 st0.e st.e, add32 st0.f st.f, add32 st0.g st.g, add32 st0.h st.h]

/-- FIPS 180-4 padding: a `0x80` byte, zeros, and the 8-byte big-endian
bit length, to a multiple of 64 bytes. -/
def pad (msg : List Nat) : List Nat :=
  msg ++ 0x80 :: List.replicate ((119 - msg.length % 64) % 64) 0 ++ natToBE 8 (8 * msg.length)

/-- Fold the compression function over `n` blocks. -/
def processBlocks : Nat → List Nat → List Nat → List Nat
  | 0, h, _ => h
  | n + 1, h, msg => processBlocks n (compress h (msg.take 64)) (msg.drop 64)

/-- SHA-256 of a byte list, as 32 bytes. -/
def sha256 (msg : List Nat) : List Nat :=
  let p := pad msg
  ((processBlocks (p.length / 64) H0 p).map (natToBE 4)).flatten

end SHA256

namespace merkle

/-- Modelled from the spec: `merkle::sha256d` (the module is not among
the visible sources) — double SHA-256, the digest primitive used by
every hash in this core. -/
def sha256d (b : List Nat) : List Nat := SHA256.sha256 (SHA256.sha256 b)

/-- Hash one Merkle level down: `sha256d(left ‖ right)` for every pair,
an odd trailing node being paired with thirty-two zero bytes.  The rule
is pinned against the repository's own `test_txid_calculations`
fixture. -/
def hashPairs : List (List Nat) → List (List Nat)
  | a :: b :: rest => sha256d (a ++ b) :: hashPairs rest
  | [a] => [sha256d (a ++ List.replicate 32 0)]
  | [] => []

/-- Climb the tree until a single node remains; the fuel is an upper
bound on the number of levels. -/
def climb : Nat → List (List Nat) → Nat → List Nat × Nat
  | _, [x], h => (x, h)
  | 0, _, h => (List.replicate 32 0, h)
  | fuel + 1, lvl, h => climb fuel (hashPairs lvl) (h + 1)

/-- Modelled from the spec: `merkle::lotus_merkle_root` (the module is
not among the visible sources) — the Merkle root and tree height over a
leaf list.  Odd levels are padded with a zero hash and the height of a
nonempty tree counts the leaf level, both pinned bit-for-bit against
the repository's `test_txid_calculations` fixture (1 input ⇒ height
byte 1, 15 outputs ⇒ height byte 5). -/
def lotus_merkle_root (leaves : List (List Nat)) : List Nat × Nat :=
  match leaves with
  | [] => (List.replicate 32 0, 0)
  | l => climb l.length l 1

end merkle

/-! ## Data model -/

/-- Error of the compact-size integer decoder.  Modelled from the spec:
`var_int::DecodeError` is not among the visible sources; the design
document names a single `Truncated` failure for an exhausted buffer. -/
inductive VarIntDecodeError
  | truncated
deriving DecidableEq

/-- Modelled from the spec: `var_int::VarInt`, a `u64` newtype. -/
structure VarInt where
  val : Nat
deriving DecidableEq

namespace VarInt

/-- Modelled from the spec: legacy Bitcoin compact-size encoding —
one byte below `0xFD`, otherwise a widening marker byte followed by a
little-endian 16/32/64-bit value. -/
def encode_raw (v : VarInt) : List Nat :=
  if v.val < 0xFD then [v.val]
  else if v.val ≤ 0xFFFF then 0xFD :: natToLE 2 v.val
  else if v.val ≤ 0xFFFFFFFF then 0xFE :: natToLE 4 v.val
  else 0xFF :: natToLE 8 v.val

/-- Modelled from the spec: the exact byte length `encode_raw`
produces. -/
def encoded_len (v : VarInt) : Nat :=
  if v.val < 0xFD then 1
  else if v.val ≤ 0xFFFF then 3
  else if v.val ≤ 0xFFFFFFFF then 5
  else 9

/-- Modelled from the spec: the compact-size decoder.  It fails with
`Truncated` when the buffer is exhausted; per the design document the
rejection of non-minimal encodings is optional and is not performed. -/
def decode (b : List Nat) : Except VarIntDecodeError (VarInt × List Nat) :=
  match b with
  | [] => .error .truncated
  | first :: rest =>
    if first = 0xFD then
      if rest.length < 2 then .error .truncated
      else .ok (⟨leToNat (rest.take 2)⟩, rest.drop 2)
    else if first = 0xFE then
      if rest.length < 4 then .error .truncated
      else .ok (⟨leToNat (rest.take 4)⟩, rest.drop 4)
    else if first = 0xFF then
      if rest.length < 8 then .error .truncated
      else .ok (⟨leToNat (rest.take 8)⟩, rest.drop 8)
    else .ok (⟨first⟩, rest)

end VarInt

/-- Modelled from the spec: `script::Script`, an opaque byte sequence
with no internal grammar. -/
structure Script where
  raw : List Nat
deriving DecidableEq

/-- Error of the script decoder.  Modelled from the spec: a failing
length prefix and a declared length exceeding the remaining buffer are
distinguishable failures. -/
inductive ScriptDecodeError
  | lengthInvalid (e : VarIntDecodeError)
  | truncated
deriving DecidableEq

namespace Script

/-- Modelled from the spec: `Script::default()`, the empty script. -/
def default : Script := ⟨[]⟩

/-- Modelled from the spec: `VarInt(length) ‖ raw_bytes`. -/
def encode_raw (s : Script) : List Nat :=
  VarInt.encode_raw ⟨s.raw.length⟩ ++ s.raw

/-- Modelled from the spec: `VarInt(len).encoded_len() + len`. -/
def encoded_len (s : Script) : Nat :=
  VarInt.encoded_len ⟨s.raw.length⟩ + s.raw.length

/-- Modelled from the spec: decode the length prefix, then take that
many raw bytes. -/
def decode (b : List Nat) : Except ScriptDecodeError (Script × List Nat) :=
  match VarInt.decode b with
  | .error e => .error (.lengthInvalid e)
  | .ok (n, rest) =>
    if rest.length < n.val then .error .truncated
    else .ok (⟨rest.take n.val⟩, rest.drop n.val)

end Script

/-- Modelled from the spec: `outpoint::Outpoint` — a 32-byte
transaction identifier plus a 4-byte little-endian output index. -/
structure Outpoint where
  txId : List Nat
  vout : Nat
deriving DecidableEq

namespace Outpoint

/-- Modelled from the spec: 36 fixed bytes, no VarInt framing. -/
def encode_raw (o : Outpoint) : List Nat := o.txId ++ natToLE 4 o.vout

/-- Modelled from the spec: decode fails if fewer than 36 bytes
remain. -/
def decode (b : List Nat) : Option (Outpoint × List Nat) :=
  if b.length < 36 then none
  else some (⟨b.take 32, leToNat ((b.drop 32).take 4)⟩, b.drop 36)

end Outpoint

/-- Modelled from the spec: `input::Input`. -/
structure Input where
  outpoint : Outpoint
  script : Script
  sequence : Nat
deriving DecidableEq

/-- Error of the input decoder.  Modelled from the spec: the error
taxonomy names `OutpointTooShort`, script failures and
`SequenceTooShort`. -/
inductive InputDecodeError
  | outpointTooShort
  | script (e : ScriptDecodeError)
  | sequenceTooShort
deriving DecidableEq

namespace Input

/-- Modelled from the spec: `Outpoint(36) ‖ Script(var) ‖
sequence(4 LE)`. -/
def encode_raw (i : Input) : List Nat :=
  i.outpoint.encode_raw ++ i.script.encode_raw ++ natToLE 4 i.sequence

/-- Modelled from the spec: `36 + script.encoded_len() + 4`. -/
def encoded_len (i : Input) : Nat := 36 + i.script.encoded_len + 4

/-- Modelled from the spec: sequential decode of outpoint, script and
sequence, each inner failure surfaced distinctly. -/
def decode (b : List Nat) : Except InputDecodeError (Input × List Nat) :=
  match Outpoint.decode b with
  | none => .error .outpointTooShort
  | some (o, rest) =>
    match Script.decode rest with
    | .error e => .error (.script e)
    | .ok (s, rest2) =>
      if rest2.length < 4 then .error .sequenceTooShort
      else .ok (⟨o, s, leToNat (rest2.take 4)⟩, rest2.drop 4)

end Input

/-- Modelled from the spec: `output::Output` — an 8-byte value and a
script. -/
structure Output where
  value : Nat
  script : Script
deriving DecidableEq

/-- Error of the output decoder.  Modelled from the spec: a too-short
value field and script failures are surfaced distinctly. -/
inductive OutputDecodeError
  | valueTooShort
  | script (e : ScriptDecodeError)
deriving DecidableEq

namespace Output

/-- Modelled from the spec: `Output::default()` — zero value, empty
script. -/
def default : Output := ⟨0, Script.default⟩

/-- Modelled from the spec: `value(8 LE) ‖ Script(var)`. -/
def encode_raw (o : Output) : List Nat :=
  natToLE 8 o.value ++ o.script.encode_raw

/-- Modelled from the spec: `8 + script.encoded_len()`. -/
def encoded_len (o : Output) : Nat := 8 + o.script.encoded_len

/-- Modelled from the spec: sequential decode of value then script. -/
def decode (b : List Nat) : Except OutputDecodeError (Output × List Nat) :=
  if b.length < 8 then .error .valueTooShort
  else
    match Script.decode (b.drop 8) with
    | .error e => .error (.script e)
    | .ok (s, rest) => .ok (⟨leToNat (b.take 8), s⟩, rest)

end Output

/-- Decode `n` consecutive elements with `dec`, stopping at the first
failure (the model of `(0..n).map(|_| T::decode(buf)).collect()`). -/
def decodeList {α ε : Type} (dec : List Nat → Except ε (α × List Nat)) :
    Nat → List Nat → Except ε (List α × List Nat)
  | 0, b => .ok ([], b)
  | n + 1, b =>
    match dec b with
    | .error e => .error e
    | .ok (a, rest) =>
      match decodeList dec n rest with
      | .error e => .error e
      | .ok (as, rest2) => .ok (a :: as, rest2)

/-- The transaction structure of `src/transaction/mod.rs`. -/
structure Transaction where
  version : Nat
  inputs : List Input
  outputs : List Output
  lock_time : Nat
deriving DecidableEq

/-- The signature hash types of `src/transaction/mod.rs`, with their
discriminants. -/
inductive SignatureHashType
  | All
  | None
  | Single
  | AnyoneCanPayAll
  | AnyoneCanPayNone
  | AnyoneCanPaySingle
deriving DecidableEq

namespace SignatureHashType

/-- The numeric value of the enum (`sig_hash_type as u32`). -/
def toU32 : SignatureHashType → Nat
  | .All => 0x01
  | .None => 0x02
  | .Single => 0x03
  | .AnyoneCanPayAll => 0x81
  | .AnyoneCanPayNone => 0x82
  | .AnyoneCanPaySingle => 0x83

/-- Translated from the source: `matches!(self, Self::All | Self::None
| Self::Single)`. -/
def is_anyone_can_pay : SignatureHashType → Bool
  | .All => true
  | .None => true
  | .Single => true
  | _ => false

end SignatureHashType

/-! ## Transaction operations, translated from `src/transaction/mod.rs` -/

/-- The source's free function `transaction_hash`: double SHA-256 of
the raw transaction bytes, little-endian.  Named `transaction_hash_of_raw`
here so the method of the same source name can refer to it. -/
def transaction_hash_of_raw (raw_transaction : List Nat) : List Nat :=
  SHA256.sha256 (SHA256.sha256 raw_transaction)

/-- The source's free function `transaction_hash_rev`: the
byte-reversed `transaction_hash`. -/
def transaction_hash_rev_of_raw (raw_transaction : List Nat) : List Nat :=
  (transaction_hash_of_raw raw_transaction).reverse

/-- Error associated with `Transaction` deserialization, from the
source's `DecodeError` enum. -/
inductive TxDecodeError
  | versionTooShort
  | inputCount (e : VarIntDecodeError)
  | input (e : InputDecodeError)
  | outputCount (e : VarIntDecodeError)
  | output (e : OutputDecodeError)
  | lockTimeTooShort
deriving DecidableEq

/-- Result of `Transaction::signature_hash`: the Rust function returns
`Option<[u8; 32]>` but can also reach `unreachable!()`; a panic is
modelled as an explicit outcome. -/
inductive SigHashResult
  | panicked
  | result (r : Option (List Nat))
deriving DecidableEq

/-- The source's `UNIT_HASH` constant: value 1 in little-endian over 32
bytes. -/
def UNIT_HASH : List Nat := 1 :: List.replicate 31 0

namespace Transaction

/-- From the source: `Encodable::encode_raw` — version, VarInt input
count, the inputs, VarInt output count, the outputs, lock time. -/
def encode_raw (t : Transaction) : List Nat :=
  natToLE 4 t.version
    ++ VarInt.encode_raw ⟨t.inputs.length⟩
    ++ (t.inputs.map Input.encode_raw).flatten
    ++ VarInt.encode_raw ⟨t.outputs.length⟩
    ++ (t.outputs.map Output.encode_raw).flatten
    ++ natToLE 4 t.lock_time

/-- From the source: `Encodable::encoded_len`. -/
def encoded_len (t : Transaction) : Nat :=
  4 + VarInt.encoded_len ⟨t.inputs.length⟩
    + (t.inputs.map Input.encoded_len).sum
    + VarInt.encoded_len ⟨t.outputs.length⟩
    + (t.outputs.map Output.encoded_len).sum
    + 4

/-- From the source: `Decodable::decode` — version, VarInt input count,
the inputs, VarInt output count, the outputs, lock time, each stage
failing with its own error. -/
def decode (b : List Nat) : Except TxDecodeError (Transaction × List Nat) :=
  if b.length < 4 then .error .versionTooShort
  else
    match VarInt.decode (b.drop 4) with
    | .error e => .error (.inputCount e)
    | .ok (nInputs, b2) =>
      match decodeList Input.decode nInputs.val b2 with
      | .error e => .error (.input e)
      | .ok (inputs, b3) =>
        match VarInt.decode b3 with
        | .error e => .error (.outputCount e)
        | .ok (nOutputs, b4) =>
          match decodeList Output.decode nOutputs.val b4 with
          | .error e => .error (.output e)
          | .ok (outputs, b5) =>
            if b5.length < 4 then .error .lockTimeTooShort
            else .ok (⟨leToNat (b.take 4), inputs, outputs, leToNat (b5.take 4)⟩, b5.drop 4)

end Transaction

/-- From the source: method `Transaction::transaction_hash` — the free
`transaction_hash` of the serialized transaction. -/
def Transaction.transaction_hash (t : Transaction) : List Nat :=
  transaction_hash_of_raw t.encode_raw

/-- From the source: method `Transaction::transaction_hash_rev`.  Its
body is identical to `transaction_hash`: it serializes and double
hashes but never reverses the digest. -/
def Transaction.transaction_hash_rev (t : Transaction) : List Nat :=
  transaction_hash_of_raw t.encode_raw

/-- From the source: `Transaction::transaction_id` — version, Merkle
root and height over the input leaves, Merkle root and height over the
output leaves, lock time, double hashed. -/
def Transaction.transaction_id (t : Transaction) : List Nat :=
  let buf0 := natToLE 4 t.version
  let inputleaves := t.inputs.map fun input =>
    merkle.sha256d (input.outpoint.encode_raw ++ natToLE 4 input.sequence)
  let ip := merkle.lotus_merkle_root inputleaves
  let buf1 := buf0 ++ ip.1 ++ [ip.2]
  let outputleaves := t.outputs.map fun output => merkle.sha256d output.encode_raw
  let op := merkle.lotus_merkle_root outputleaves
  let buf2 := buf1 ++ op.1 ++ [op.2]
  merkle.sha256d (buf2 ++ natToLE 4 t.lock_time)

/-- From the source: `Transaction::transaction_id_rev` — the reversed
`transaction_id`. -/
def Transaction.transaction_id_rev (t : Transaction) : List Nat :=
  t.transaction_id.reverse

/-- From the source: the body of `Transaction::signature_hash` after
the sighash-single early return — builds the transient input list (an
out-of-range `input_index` under `is_anyone_can_pay` yielding `None`),
the transient output list (`unreachable!()`, modelled as `panicked`,
for the types the match does not cover), then serializes the transient
transaction, appends the little-endian sighash-type value and double
hashes. -/
def Transaction.signature_hash_tail (t : Transaction) (input_index : Nat)
    (script_pubkey : Script) (sig_hash_type : SignatureHashType) : SigHashResult :=
  let inputsOpt : Option (List Input) :=
    if sig_hash_type.is_anyone_can_pay then
      match t.inputs.get? input_index with
      | none => none
      | some input => some [{ outpoint := input.outpoint, script := script_pubkey,
                              sequence := input.sequence }]
    else
      some (t.inputs.enum.map fun p =>
        let sequence :=
          if p.1 ≠ input_index ∧
              (sig_hash_type = .Single ∨ sig_hash_type = .None) then 0
          else p.2.sequence
        let script := if p.1 = input_index then script_pubkey else Script.default
        { outpoint := p.2.outpoint, sequence := sequence, script := script })
  match inputsOpt with
  | none => .result none
  | some inputs =>
    let outputsOpt : Option (List Output) :=
      match sig_hash_type with
      | .All => some t.outputs
      | .Single => some ((t.outputs.take (input_index + 1)).enum.map fun p =>
          if p.1 = input_index then p.2 else Output.default)
      | .None => some []
      | _ => none
    match outputsOpt with
    | none => .panicked
    | some outputs =>
      let transaction : Transaction :=
        { version := t.version, lock_time := t.lock_time,
          inputs := inputs, outputs := outputs }
      let raw := transaction.encode_raw ++ natToLE 4 sig_hash_type.toU32
      .result (some (SHA256.sha256 (SHA256.sha256 raw)))

/-- From the source: `Transaction::signature_hash` — the sighash-single
early return followed by `signature_hash_tail`. -/
def Transaction.signature_hash (t : Transaction) (input_index : Nat)
    (script_pubkey : Script) (sig_hash_type : SignatureHashType) : SigHashResult :=
  if sig_hash_type = SignatureHashType.Single ∧ t.outputs.length ≤ input_index then
    .result (some UNIT_HASH)
  else
    t.signature_hash_tail input_index script_pubkey sig_hash_type

/-! ## Claims -/

/-- C1: for every transaction, script and input index, if the sighash
type is `Single` and the index is at least the number of outputs,
`signature_hash` returns `Some` of the 32-byte constant `1 ‖ 0×31`,
whatever the other fields are; and the early return fires only for
`Single`: for every other sighash type the function coincides with its
own body without the early return (`signature_hash_tail`). -/
theorem sighash_single_quirk :
    (∀ (t : Transaction) (input_index : Nat) (script_pubkey : Script),
      t.outputs.length ≤ input_index →
        t.signature_hash input_index script_pubkey .Single =
          .result (some (1 :: List.replicate 31 0))) ∧
    (∀ (t : Transaction) (input_index : Nat) (script_pubkey : Script)
        (ty : SignatureHashType), ty ≠ .Single →
        t.signature_hash input_index script_pubkey ty =
          t.signature_hash_tail input_index script_pubkey ty) := by
  constructor
  · intro t input_index script_pubkey h
    unfold Transaction.signature_hash
    rw [if_pos ⟨rfl, h⟩]
    rfl
  · intro t input_index script_pubkey ty h
    unfold Transaction.signature_hash
    rw [if_neg fun hc => h hc.1]

/-- Witness for C1 at concrete inputs: the empty transaction with
index 0 under `Single`, and the same under `AnyoneCanPayAll`. -/
theorem sighash_single_quirk_witness :
    Transaction.signature_hash ⟨0, [], [], 0⟩ 0 ⟨[]⟩ .Single =
        .result (some (1 :: List.replicate 31 0)) ∧
    Transaction.signature_hash ⟨0, [], [], 0⟩ 0 ⟨[]⟩ .AnyoneCanPayAll =
        Transaction.signature_hash_tail ⟨0, [], [], 0⟩ 0 ⟨[]⟩ .AnyoneCanPayAll :=
  ⟨sighash_single_quirk.1 ⟨0, [], [], 0⟩ 0 ⟨[]⟩ (by decide),
   sighash_single_quirk.2 ⟨0, [], [], 0⟩ 0 ⟨[]⟩ .AnyoneCanPayAll (by decide)⟩

/-- C2: `is_anyone_can_pay` is true exactly for the three base
variants `All`, `None`, `Single` and false for the three 0x80-flagged
variants. -/
theorem is_anyone_can_pay_inverted :
    SignatureHashType.All.is_anyone_can_pay = true ∧
    SignatureHashType.None.is_anyone_can_pay = true ∧
    SignatureHashType.Single.is_anyone_can_pay = true ∧
    SignatureHashType.AnyoneCanPayAll.is_anyone_can_pay = false ∧
    SignatureHashType.AnyoneCanPayNone.is_anyone_can_pay = false ∧
    SignatureHashType.AnyoneCanPaySingle.is_anyone_can_pay = false := by
  decide

/-- C3 (code bug): with sighash type `AnyoneCanPayAll` and an
out-of-range input index on the empty transaction — where the Single
quirk does not fire — `signature_hash` does not return `None` but hits
the source's `unreachable!()`: its inverted `is_anyone_can_pay`
predicate routes the 0x80-flagged types into the all-inputs branch and
the output match covers only `All`, `Single` and `None`. -/
theorem sighash_acp_out_of_range_panics :
    Transaction.signature_hash ⟨0, [], [], 0⟩ 0 ⟨[]⟩ .AnyoneCanPayAll =
        .panicked ∧
    Transaction.signature_hash ⟨0, [], [], 0⟩ 0 ⟨[]⟩ .AnyoneCanPayAll ≠
        .result none := by
  decide

/-- C4 (code bug): with `AnyoneCanPayAll` and a valid input index the
digest is not merely independent of the other inputs — no digest is
produced at all: both of two transactions that differ only in the
input other than `input_index` make `signature_hash` reach the
source's `unreachable!()`. -/
theorem sighash_acp_all_always_panics :
    Transaction.signature_hash
        ⟨1, [⟨⟨List.replicate 32 0, 0⟩, ⟨[]⟩, 5⟩, ⟨⟨List.replicate 32 0, 1⟩, ⟨[]⟩, 5⟩],
         [⟨50, ⟨[0x51]⟩⟩], 0⟩ 0 ⟨[]⟩ .AnyoneCanPayAll = .panicked ∧
    Transaction.signature_hash
        ⟨1, [⟨⟨List.replicate 32 0, 0⟩, ⟨[]⟩, 5⟩, ⟨⟨List.replicate 32 1, 9⟩, ⟨[0x00]⟩, 7⟩],
         [⟨50, ⟨[0x51]⟩⟩], 0⟩ 0 ⟨[]⟩ .AnyoneCanPayAll = .panicked := by
  decide

/-- The identifier computation exactly as the claim describes it: the
double hash of the concatenation of the little-endian version, the
Merkle root over the input leaves, the input tree height byte, the
Merkle root over the output leaves, the output tree height byte, and
the little-endian lock time, the leaves being the double hashes of
each input's serialized outpoint followed by its little-endian
sequence, and of each serialized output, in transaction order. -/
def transaction_id_described (t : Transaction) : List Nat :=
  let inputLeaves := t.inputs.map fun i =>
    merkle.sha256d (i.outpoint.encode_raw ++ natToLE 4 i.sequence)
  let outputLeaves := t.outputs.map fun o => merkle.sha256d o.encode_raw
  merkle.sha256d
    (natToLE 4 t.version ++
      ((merkle.lotus_merkle_root inputLeaves).1 ++
        ([(merkle.lotus_merkle_root inputLeaves).2] ++
          ((merkle.lotus_merkle_root outputLeaves).1 ++
            ([(merkle.lotus_merkle_root outputLeaves).2] ++ natToLE 4 t.lock_time)))))

/-- C5: `transaction_id` computes exactly the digest the claim
describes. -/
theorem transaction_id_matches_description :
    ∀ t : Transaction, t.transaction_id = transaction_id_described t := by
  intro t
  simp [Transaction.transaction_id, transaction_id_described]

/-- C6 (code bug): `transaction_hash` is the double hash of the
serialized transaction, but the method `transaction_hash_rev` does not
byte-reverse it: on the default transaction it returns the very same
digest, which differs from the reversal (the free function
`transaction_hash_rev_of_raw` does reverse). -/
theorem transaction_hash_rev_not_reversed :
    (∀ t : Transaction, t.transaction_hash = merkle.sha256d t.encode_raw) ∧
    Transaction.transaction_hash_rev ⟨0, [], [], 0⟩ =
        Transaction.transaction_hash ⟨0, [], [], 0⟩ ∧
    Transaction.transaction_hash_rev ⟨0, [], [], 0⟩ ≠
        (Transaction.transaction_hash ⟨0, [], [], 0⟩).reverse ∧
    transaction_hash_rev_of_raw (Transaction.encode_raw ⟨0, [], [], 0⟩) =
        (Transaction.transaction_hash ⟨0, [], [], 0⟩).reverse :=
  ⟨fun _ => rfl, rfl, by set_option maxRecDepth 100000 in decide, rfl⟩

/-! ## Codec lemmas -/

theorem natToLE_length (w v : Nat) : (natToLE w v).length = w := by
  induction w generalizing v with
  | zero => rfl
  | succ w ih => simp [natToLE, ih]

theorem leToNat_natToLE (w v : Nat) (h : v < 2 ^ (8 * w)) :
    leToNat (natToLE w v) = v := by
  induction w generalizing v with
  | zero => simp [natToLE, leToNat]; omega
  | succ w ih =>
    have hlt : v / 256 < 2 ^ (8 * w) := by
      have h256 : (256 : Nat) * 2 ^ (8 * w) = 2 ^ (8 * (w + 1)) := by ring
      omega
    simp [natToLE, leToNat, ih (v / 256) hlt]
    omega

/-- Splitting off an encoded chunk of known length. -/
theorem take_len_append {c rest : List Nat} {n : Nat} (h : c.length = n) :
    (c ++ rest).take n = c := by
  subst h; exact List.take_left c rest

theorem drop_len_append {c rest : List Nat} {n : Nat} (h : c.length = n) :
    (c ++ rest).drop n = rest := by
  subst h; exact List.drop_left c rest

theorem length_append_ge {c rest : List Nat} {n : Nat} (h : c.length = n) :
    ¬ (c ++ rest).length < n := by
  simp [List.length_append, h]

/-! Well-formedness: the bounds the Rust types (`u32`, `u64`, `[u8; 32]`)
enforce by construction, stated explicitly on the `Nat`/`List` model. -/

def Outpoint.WF (o : Outpoint) : Prop := o.txId.length = 32 ∧ o.vout < 2 ^ 32

def Script.WF (s : Script) : Prop := s.raw.length < 2 ^ 64

def Input.WF (i : Input) : Prop := i.outpoint.WF ∧ i.script.WF ∧ i.sequence < 2 ^ 32

def Output.WF (o : Output) : Prop := o.value < 2 ^ 64 ∧ o.script.WF

def Transaction.WF (t : Transaction) : Prop :=
  t.version < 2 ^ 32 ∧ t.lock_time < 2 ^ 32 ∧
  t.inputs.length < 2 ^ 64 ∧ t.outputs.length < 2 ^ 64 ∧
  (∀ i ∈ t.inputs, i.WF) ∧ (∀ o ∈ t.outputs, o.WF)

instance : DecidablePred Outpoint.WF := fun o => by unfold Outpoint.WF; infer_instance
instance : DecidablePred Script.WF := fun s => by unfold Script.WF; infer_instance
instance : DecidablePred Input.WF := fun i => by unfold Input.WF; infer_instance
instance : DecidablePred Output.WF := fun o => by unfold Output.WF; infer_instance
instance : DecidablePred Transaction.WF := fun t => by unfold Transaction.WF; infer_instance

/-! Decoding an encoder's output consumes exactly the encoded bytes and
returns the encoded value. -/

theorem varint_decode_after_encode (v : Nat) (rest : List Nat) (h : v < 2 ^ 64) :
    VarInt.decode (VarInt.encode_raw ⟨v⟩ ++ rest) = .ok (⟨v⟩, rest) := by
  unfold VarInt.encode_raw
  by_cases h1 : v < 0xFD
  · rw [if_pos h1, List.singleton_append]
    simp only [VarInt.decode]
    rw [if_neg (by omega), if_neg (by omega), if_neg (by omega)]
  · rw [if_neg h1]
    by_cases h2 : v ≤ 0xFFFF
    · rw [if_pos h2, List.cons_append]
      simp only [VarInt.decode, reduceIte]
      rw [if_neg (length_append_ge (natToLE_length 2 v)),
        take_len_append (natToLE_length 2 v), drop_len_append (natToLE_length 2 v),
        leToNat_natToLE 2 v (by omega)]
    · rw [if_neg h2]
      by_cases h3 : v ≤ 0xFFFFFFFF
      · rw [if_pos h3, List.cons_append]
        simp only [VarInt.decode, reduceIte]
        rw [if_neg (length_append_ge (natToLE_length 4 v)),
          take_len_append (natToLE_length 4 v), drop_len_append (natToLE_length 4 v),
          leToNat_natToLE 4 v (by omega)]
        norm_num
      · rw [if_neg h3, List.cons_append]
        simp only [VarInt.decode, reduceIte]
        rw [if_neg (length_append_ge (natToLE_length 8 v)),
          take_len_append (natToLE_length 8 v), drop_len_append (natToLE_length 8 v),
          leToNat_natToLE 8 v (by omega)]
        norm_num

theorem script_decode_after_encode (s : Script) (rest : List Nat) (h : s.WF) :
    Script.decode (s.encode_raw ++ rest) = .ok (s, rest) := by
  unfold Script.encode_raw Script.decode
  rw [List.append_assoc, varint_decode_after_encode s.raw.length (s.raw ++ rest) h]
  simp only
  rw [if_neg (length_append_ge rfl), take_len_append rfl, drop_len_append rfl]

theorem outpoint_decode_after_encode (o : Outpoint) (rest : List Nat) (h : o.WF) :
    Outpoint.decode (o.encode_raw ++ rest) = some (o, rest) := by
  obtain ⟨h32, hv⟩ := h
  unfold Outpoint.encode_raw Outpoint.decode
  have hlen : (o.txId ++ natToLE 4 o.vout).length = 36 := by
    simp [List.length_append, h32, natToLE_length]
  rw [if_neg (length_append_ge hlen), drop_len_append hlen, List.append_assoc,
    take_len_append h32, drop_len_append h32, take_len_append (natToLE_length 4 o.vout),
    leToNat_natToLE 4 o.vout hv]

theorem input_decode_after_encode (i : Input) (rest : List Nat) (h : i.WF) :
    Input.decode (i.encode_raw ++ rest) = .ok (i, rest) := by
  obtain ⟨ho, hs, hseq⟩ := h
  unfold Input.encode_raw Input.decode
  rw [List.append_assoc, List.append_assoc,
    outpoint_decode_after_encode i.outpoint _ ho]
  simp only
  rw [script_decode_after_encode i.script _ hs]
  simp only
  rw [if_neg (length_append_ge (natToLE_length 4 i.sequence)),
    take_len_append (natToLE_length 4 i.sequence),
    drop_len_append (natToLE_length 4 i.sequence),
    leToNat_natToLE 4 i.sequence hseq]

theorem output_decode_after_encode (o : Output) (rest : List Nat) (h : o.WF) :
    Output.decode (o.encode_raw ++ rest) = .ok (o, rest) := by
  unfold Output.encode_raw Output.decode
  rw [List.append_assoc, if_neg (length_append_ge (natToLE_length 8 o.value)),
    drop_len_append (natToLE_length 8 o.value),
    script_decode_after_encode o.script rest h.2,
    take_len_append (natToLE_length 8 o.value),
    leToNat_natToLE 8 o.value h.1]

/-- Decoding a flattened list of encodings returns the encoded
elements, given the per-element round trip. -/
theorem decodeList_decode_encode {α ε : Type}
    (dec : List Nat → Except ε (α × List Nat)) (enc : α → List Nat)
    (xs : List α) (rest : List Nat)
    (h : ∀ x ∈ xs, ∀ r : List Nat, dec (enc x ++ r) = .ok (x, r)) :
    decodeList dec xs.length ((xs.map enc).flatten ++ rest) = .ok (xs, rest) := by
  induction xs with
  | nil => simp [decodeList]
  | cons x xs ih =>
    simp only [List.map_cons, List.flatten_cons, List.length_cons, List.append_assoc]
    unfold decodeList
    rw [h x (by simp) ((xs.map enc).flatten ++ rest)]
    simp only
    rw [ih fun y hy r => h y (by simp [hy]) r]

/-- C7 (amended round trip): decoding the encoding of any well-formed
transaction succeeds, consumes every byte, and returns the same
transaction — hence `encode(decode(b)) = b` for every `b` in the image
of the encoder. -/
theorem decode_encode_roundtrip (t : Transaction) (h : t.WF) :
    Transaction.decode t.encode_raw = .ok (t, []) := by
  obtain ⟨hver, hlock, hilen, holen, hins, houts⟩ := h
  unfold Transaction.encode_raw Transaction.decode
  rw [List.append_assoc, List.append_assoc, List.append_assoc, List.append_assoc]
  rw [if_neg (length_append_ge (natToLE_length 4 t.version)),
    take_len_append (natToLE_length 4 t.version),
    drop_len_append (natToLE_length 4 t.version),
    leToNat_natToLE 4 t.version hver,
    varint_decode_after_encode t.inputs.length _ hilen]
  simp only
  rw [decodeList_decode_encode Input.decode Input.encode_raw t.inputs _
    fun i hi r => input_decode_after_encode i r (hins i hi)]
  simp only
  rw [varint_decode_after_encode t.outputs.length _ holen]
  simp only
  rw [decodeList_decode_encode Output.decode Output.encode_raw t.outputs _
    fun o ho r => output_decode_after_encode o r (houts o ho)]
  simp only
  rw [if_neg (by simp [natToLE_length]),
    List.take_of_length_le (by simp [natToLE_length]),
    List.drop_eq_nil_of_le (by simp [natToLE_length]),
    leToNat_natToLE 4 t.lock_time hlock]

/-- Witness for the amended C7 round trip at a concrete transaction:
one input, one output. -/
theorem decode_encode_roundtrip_witness :
    Transaction.decode
        (Transaction.encode_raw
          ⟨1, [⟨⟨List.replicate 32 7, 3⟩, ⟨[0x51]⟩, 0xFFFFFFFF⟩], [⟨50, ⟨[0x6A]⟩⟩], 2⟩) =
      .ok (⟨1, [⟨⟨List.replicate 32 7, 3⟩, ⟨[0x51]⟩, 0xFFFFFFFF⟩], [⟨50, ⟨[0x6A]⟩⟩], 2⟩, []) :=
  decode_encode_roundtrip
    ⟨1, [⟨⟨List.replicate 32 7, 3⟩, ⟨[0x51]⟩, 0xFFFFFFFF⟩], [⟨50, ⟨[0x6A]⟩⟩], 2⟩ (by decide)

/-- Decidable equality of decode results, for concrete evaluation. -/
instance {e a : Type} [DecidableEq e] [DecidableEq a] : DecidableEq (Except e a) :=
  fun x y =>
    match x, y with
    | .ok v, .ok w => decidable_of_iff (v = w) (by simp)
    | .error v, .error w => decidable_of_iff (v = w) (by simp)
    | .ok _, .error _ => isFalse (by simp)
    | .error _, .ok _ => isFalse (by simp)

/-- C7 counterexample: the byte string `01000000 FD0000 00 00000000`
is a byte sequence (all entries below 256) that `Transaction::decode`
accepts while consuming it entirely — the input count is the
non-minimal compact-size encoding `FD 00 00` of zero — yet re-encoding
the decoded transaction yields the shorter canonical bytes, not the
original buffer. -/
theorem decode_accepts_nonminimal_varint :
    Transaction.decode [1, 0, 0, 0, 0xFD, 0, 0, 0, 0, 0, 0, 0] =
        .ok (⟨1, [], [], 0⟩, []) ∧
    (∀ x ∈ [1, 0, 0, 0, 0xFD, 0, 0, 0, 0, 0, 0, 0], x < 256) ∧
    Transaction.encode_raw ⟨1, [], [], 0⟩ ≠
        [1, 0, 0, 0, 0xFD, 0, 0, 0, 0, 0, 0, 0] := by
  refine ⟨by decide, by decide, by decide⟩

/-! Length exactness: the encoder produces exactly `encoded_len`
bytes. -/

theorem varint_encode_len_exact (v : VarInt) :
    (VarInt.encode_raw v).length = VarInt.encoded_len v := by
  unfold VarInt.encode_raw VarInt.encoded_len
  split_ifs <;> simp [natToLE_length]

theorem script_encode_len_exact (s : Script) :
    (Script.encode_raw s).length = Script.encoded_len s := by
  unfold Script.encode_raw Script.encoded_len
  simp [List.length_append, varint_encode_len_exact]

theorem input_encode_len_exact (i : Input) (h : i.outpoint.txId.length = 32) :
    (Input.encode_raw i).length = Input.encoded_len i := by
  unfold Input.encode_raw Input.encoded_len Outpoint.encode_raw
  simp [List.length_append, natToLE_length, script_encode_len_exact, h]
  omega

theorem output_encode_len_exact (o : Output) :
    (Output.encode_raw o).length = Output.encoded_len o := by
  unfold Output.encode_raw Output.encoded_len
  simp [List.length_append, natToLE_length, script_encode_len_exact]

/-- C8: for every well-formed transaction, `encoded_len` equals the
exact number of bytes `encode_raw` produces; unfolding the definitions
this is the sum `4 + varint(#inputs) + Σ inputs + varint(#outputs) +
Σ outputs + 4`. -/
theorem encoded_len_exact (t : Transaction) (h : t.WF) :
    Transaction.encoded_len t = (Transaction.encode_raw t).length := by
  obtain ⟨-, -, -, -, hins, -⟩ := h
  unfold Transaction.encoded_len Transaction.encode_raw
  simp only [List.length_append, natToLE_length, varint_encode_len_exact,
    List.length_flatten, List.map_map]
  have hin : t.inputs.map (List.length ∘ Input.encode_raw) =
      t.inputs.map Input.encoded_len :=
    List.map_congr_left fun i hi => input_encode_len_exact i (hins i hi).1.1
  have hout : t.outputs.map (List.length ∘ Output.encode_raw) =
      t.outputs.map Output.encoded_len :=
    List.map_congr_left fun o _ => output_encode_len_exact o
  rw [hin, hout]

/-- Witness for C8 at a concrete transaction. -/
theorem encoded_len_exact_witness :
    Transaction.encoded_len
        ⟨1, [⟨⟨List.replicate 32 7, 3⟩, ⟨[0x51]⟩, 9⟩], [⟨50, ⟨[]⟩⟩], 2⟩ =
      (Transaction.encode_raw
        ⟨1, [⟨⟨List.replicate 32 7, 3⟩, ⟨[0x51]⟩, 9⟩], [⟨50, ⟨[]⟩⟩], 2⟩).length :=
  encoded_len_exact ⟨1, [⟨⟨List.replicate 32 7, 3⟩, ⟨[0x51]⟩, 9⟩], [⟨50, ⟨[]⟩⟩], 2⟩
    (by decide)

/-! Suffix stability: a successful parse of `b` is unchanged by
appending extra bytes, which stay unread. -/

theorem readLE_suffix (n : Nat) (r s rest : List Nat) (v : VarInt)
    (h : (if r.length < n then (.error .truncated : Except VarIntDecodeError (VarInt × List Nat))
          else .ok (⟨leToNat (r.take n)⟩, r.drop n)) = .ok (v, rest)) :
    (if (r ++ s).length < n then (.error .truncated : Except VarIntDecodeError (VarInt × List Nat))
     else .ok (⟨leToNat ((r ++ s).take n)⟩, (r ++ s).drop n)) = .ok (v, rest ++ s) := by
  by_cases hl : r.length < n
  · rw [if_pos hl] at h; exact absurd h (by simp)
  · rw [if_neg hl] at h
    rw [if_neg (by simp; omega),
      List.take_append_of_le_length (by omega),
      List.drop_append_of_le_length (by omega)]
    simp only [Except.ok.injEq, Prod.mk.injEq] at h
    rw [h.1, h.2]

theorem varint_decode_suffix (b s : List Nat) (v : VarInt) (rest : List Nat)
    (h : VarInt.decode b = .ok (v, rest)) :
    VarInt.decode (b ++ s) = .ok (v, rest ++ s) := by
  match b with
  | [] => simp [VarInt.decode] at h
  | f :: r =>
    simp only [VarInt.decode, List.cons_append] at h ⊢
    by_cases h1 : f = 0xFD
    · rw [if_pos h1] at h ⊢; exact readLE_suffix 2 r s rest v h
    · rw [if_neg h1] at h ⊢
      by_cases h2 : f = 0xFE
      · rw [if_pos h2] at h ⊢; exact readLE_suffix 4 r s rest v h
      · rw [if_neg h2] at h ⊢
        by_cases h3 : f = 0xFF
        · rw [if_pos h3] at h ⊢; exact readLE_suffix 8 r s rest v h
        · rw [if_neg h3] at h ⊢
          simp only [Except.ok.injEq, Prod.mk.injEq] at h
          rw [h.1, h.2]

theorem script_decode_suffix (b s : List Nat) (v : Script) (rest : List Nat)
    (h : Script.decode b = .ok (v, rest)) :
    Script.decode (b ++ s) = .ok (v, rest ++ s) := by
  unfold Script.decode at h ⊢
  cases hv : VarInt.decode b with
  | error e => rw [hv] at h; exact absurd h (by simp)
  | ok p =>
    rw [hv] at h
    rw [varint_decode_suffix b s p.1 p.2 (by rw [hv])]
    simp only at h ⊢
    by_cases hl : p.2.length < p.1.val
    · rw [if_pos hl] at h; exact absurd h (by simp)
    · rw [if_neg hl] at h
      rw [if_neg (by simp; omega),
        List.take_append_of_le_length (by omega),
        List.drop_append_of_le_length (by omega)]
      simp only [Except.ok.injEq, Prod.mk.injEq] at h
      rw [h.1, h.2]

theorem outpoint_decode_suffix (b s : List Nat) (v : Outpoint) (rest : List Nat)
    (h : Outpoint.decode b = some (v, rest)) :
    Outpoint.decode (b ++ s) = some (v, rest ++ s) := by
  unfold Outpoint.decode at h ⊢
  by_cases hl : b.length < 36
  · rw [if_pos hl] at h; exact absurd h (by simp)
  · rw [if_neg hl] at h
    rw [if_neg (by simp; omega),
      List.take_append_of_le_length (by omega),
      List.drop_append_of_le_length (by omega),
      List.drop_append_of_le_length (by omega),
      List.take_append_of_le_length (by simp [List.length_drop]; omega)]
    simp only [Option.some.injEq, Prod.mk.injEq] at h
    rw [h.1, h.2]

theorem input_decode_suffix (b s : List Nat) (v : Input) (rest : List Nat)
    (h : Input.decode b = .ok (v, rest)) :
    Input.decode (b ++ s) = .ok (v, rest ++ s) := by
  unfold Input.decode at h ⊢
  cases ho : Outpoint.decode b with
  | none => rw [ho] at h; exact absurd h (by simp)
  | some p =>
    rw [ho] at h
    rw [outpoint_decode_suffix b s p.1 p.2 (by rw [ho])]
    simp only at h ⊢
    cases hs : Script.decode p.2 with
    | error e => rw [hs] at h; exact absurd h (by simp)
    | ok q =>
      rw [hs] at h
      rw [script_decode_suffix p.2 s q.1 q.2 (by rw [hs])]
      simp only at h ⊢
      by_cases hl : q.2.length < 4
      · rw [if_pos hl] at h; exact absurd h (by simp)
      · rw [if_neg hl] at h
        rw [if_neg (by simp; omega),
          List.take_append_of_le_length (by omega),
          List.drop_append_of_le_length (by omega)]
        simp only [Except.ok.injEq, Prod.mk.injEq] at h
        rw [h.1, h.2]

theorem output_decode_suffix (b s : List Nat) (v : Output) (rest : List Nat)
    (h : Output.decode b = .ok (v, rest)) :
    Output.decode (b ++ s) = .ok (v, rest ++ s) := by
  unfold Output.decode at h ⊢
  by_cases hl : b.length < 8
  · rw [if_pos hl] at h; exact absurd h (by simp)
  · rw [if_neg hl] at h
    rw [if_neg (by simp; omega),
      List.drop_append_of_le_length (by omega),
      List.take_append_of_le_length (by omega)]
    cases hs : Script.decode (b.drop 8) with
    | error e => rw [hs] at h; exact absurd h (by simp)
    | ok q =>
      rw [hs] at h
      rw [script_decode_suffix (b.drop 8) s q.1 q.2 (by rw [hs])]
      simp only at h ⊢
      simp only [Except.ok.injEq, Prod.mk.injEq] at h
      rw [h.1, h.2]

theorem decodeList_suffix {α ε : Type} (dec : List Nat → Except ε (α × List Nat))
    (hdec : ∀ b s v rest, dec b = .ok (v, rest) → dec (b ++ s) = .ok (v, rest ++ s))
    (n : Nat) (b s : List Nat) (vs : List α) (rest : List Nat)
    (h : decodeList dec n b = .ok (vs, rest)) :
    decodeList dec n (b ++ s) = .ok (vs, rest ++ s) := by
  induction n generalizing b vs rest with
  | zero =>
    unfold decodeList at h ⊢
    simp only [Except.ok.injEq, Prod.mk.injEq] at h
    rw [h.1, h.2]
  | succ n ih =>
    unfold decodeList at h ⊢
    cases hd : dec b with
    | error e => rw [hd] at h; exact absurd h (by simp)
    | ok p =>
      rw [hd] at h
      rw [hdec b s p.1 p.2 (by rw [hd])]
      simp only at h ⊢
      cases hr : decodeList dec n p.2 with
      | error e => rw [hr] at h; exact absurd h (by simp)
      | ok q =>
        rw [hr] at h
        rw [ih p.2 q.1 q.2 (by rw [hr])]
        simp only [Except.ok.injEq, Prod.mk.injEq] at h ⊢
        exact ⟨h.1, by rw [h.2]⟩

/-- C10: `Transaction::decode` does not require exact consumption —
appending arbitrary trailing bytes to a successfully decoding buffer
leaves the decoded transaction unchanged and the trailing bytes
unread. -/
theorem decode_ignores_trailing_bytes (b s : List Nat) (t : Transaction)
    (rest : List Nat) (h : Transaction.decode b = .ok (t, rest)) :
    Transaction.decode (b ++ s) = .ok (t, rest ++ s) := by
  unfold Transaction.decode at h ⊢
  by_cases hl : b.length < 4
  · rw [if_pos hl] at h; exact absurd h (by simp)
  · rw [if_neg hl] at h
    rw [if_neg (by simp; omega),
      List.drop_append_of_le_length (by omega),
      List.take_append_of_le_length (by omega)]
    cases h1 : VarInt.decode (b.drop 4) with
    | error e => rw [h1] at h; exact absurd h (by simp)
    | ok p =>
      rw [h1] at h
      rw [varint_decode_suffix (b.drop 4) s p.1 p.2 (by rw [h1])]
      simp only at h ⊢
      cases h2 : decodeList Input.decode p.1.val p.2 with
      | error e => rw [h2] at h; exact absurd h (by simp)
      | ok pi =>
        rw [h2] at h
        rw [decodeList_suffix Input.decode input_decode_suffix p.1.val p.2 s pi.1 pi.2
          (by rw [h2])]
        simp only at h ⊢
        cases h3 : VarInt.decode pi.2 with
        | error e => rw [h3] at h; exact absurd h (by simp)
        | ok q =>
          rw [h3] at h
          rw [varint_decode_suffix pi.2 s q.1 q.2 (by rw [h3])]
          simp only at h ⊢
          cases h4 : decodeList Output.decode q.1.val q.2 with
          | error e => rw [h4] at h; exact absurd h (by simp)
          | ok po =>
            rw [h4] at h
            rw [decodeList_suffix Output.decode output_decode_suffix q.1.val q.2 s po.1 po.2
              (by rw [h4])]
            simp only at h ⊢
            by_cases h5 : po.2.length < 4
            · rw [if_pos h5] at h; exact absurd h (by simp)
            · rw [if_neg h5] at h
              rw [if_neg (by simp; omega),
                List.take_append_of_le_length (by omega),
                List.drop_append_of_le_length (by omega)]
              simp only [Except.ok.injEq, Prod.mk.injEq] at h
              rw [h.1, h.2]

/-- Witness for C10: a minimal empty transaction followed by two junk
bytes decodes to the same transaction, leaving the junk unread. -/
theorem decode_ignores_trailing_bytes_witness :
    Transaction.decode ([2, 0, 0, 0, 0, 0, 9, 0, 0, 0] ++ [0xAB, 0xCD]) =
      .ok (⟨2, [], [], 9⟩, [] ++ [0xAB, 0xCD]) :=
  decode_ignores_trailing_bytes [2, 0, 0, 0, 0, 0, 9, 0, 0, 0] [0xAB, 0xCD]
    ⟨2, [], [], 9⟩ [] (by decide)

/-- C9 counterexample: the decode error does not carry the positional
index of the failing element.  A 1-input buffer whose first input is
truncated and a 2-input buffer whose *second* input is truncated (its
first input parses fine, as the third conjunct shows) produce the very
same error value `Input(OutpointTooShort)` — no function of the error
can recover which element failed. -/
theorem decode_error_lacks_index :
    Transaction.decode [0, 0, 0, 0, 1] = .error (.input .outpointTooShort) ∧
    Transaction.decode ([0, 0, 0, 0, 2] ++
        (List.replicate 36 0 ++ [0] ++ [0, 0, 0, 0])) =
      .error (.input .outpointTooShort) ∧
    Input.decode (List.replicate 36 0 ++ [0] ++ [0, 0, 0, 0]) =
      .ok (⟨⟨List.replicate 32 0, 0⟩, ⟨[]⟩, 0⟩, []) := by
  refine ⟨by decide, by decide, by decide⟩

/-- C9 (amended error taxonomy): `decode` fails with `VersionTooShort`
exactly when fewer than 4 bytes remain for the version; it wraps a
failing input-count or output-count VarInt as `InputCount`/`OutputCount`
and a failing input or output element's error as `Input`/`Output` —
without a positional index; and it fails with `LockTimeTooShort`
exactly when every earlier stage succeeds and fewer than 4 bytes
remain for the lock time. -/
theorem decode_error_taxonomy :
    (∀ b : List Nat,
      Transaction.decode b = .error .versionTooShort ↔ b.length < 4) ∧
    (∀ (b : List Nat) (e : VarIntDecodeError), 4 ≤ b.length →
      VarInt.decode (b.drop 4) = .error e →
      Transaction.decode b = .error (.inputCount e)) ∧
    (∀ (b : List Nat) (n : VarInt) (b2 : List Nat) (e : InputDecodeError),
      4 ≤ b.length →
      VarInt.decode (b.drop 4) = .ok (n, b2) →
      decodeList Input.decode n.val b2 = .error e →
      Transaction.decode b = .error (.input e)) ∧
    (∀ (b : List Nat) (n : VarInt) (b2 : List Nat) (ins : List Input)
        (b3 : List Nat) (e : VarIntDecodeError), 4 ≤ b.length →
      VarInt.decode (b.drop 4) = .ok (n, b2) →
      decodeList Input.decode n.val b2 = .ok (ins, b3) →
      VarInt.decode b3 = .error e →
      Transaction.decode b = .error (.outputCount e)) ∧
    (∀ (b : List Nat) (n : VarInt) (b2 : List Nat) (ins : List Input)
        (b3 : List Nat) (m : VarInt) (b4 : List Nat) (e : OutputDecodeError),
      4 ≤ b.length →
      VarInt.decode (b.drop 4) = .ok (n, b2) →
      decodeList Input.decode n.val b2 = .ok (ins, b3) →
      VarInt.decode b3 = .ok (m, b4) →
      decodeList Output.decode m.val b4 = .error e →
      Transaction.decode b = .error (.output e)) ∧
    (∀ b : List Nat,
      Transaction.decode b = .error .lockTimeTooShort ↔
        ∃ (n : VarInt) (b2 : List Nat) (ins : List Input) (b3 : List Nat)
          (m : VarInt) (b4 : List Nat) (outs : List Output) (b5 : List Nat),
          4 ≤ b.length ∧
          VarInt.decode (b.drop 4) = .ok (n, b2) ∧
          decodeList Input.decode n.val b2 = .ok (ins, b3) ∧
          VarInt.decode b3 = .ok (m, b4) ∧
          decodeList Output.decode m.val b4 = .ok (outs, b5) ∧
          b5.length < 4) := by
  refine ⟨?_, ?_, ?_, ?_, ?_, ?_⟩
  · intro b
    constructor
    · intro hc
      by_contra hl
      unfold Transaction.decode at hc
      rw [if_neg hl] at hc
      cases h1 : VarInt.decode (b.drop 4) with
      | error e => rw [h1] at hc; exact absurd hc (by simp)
      | ok p =>
        rw [h1] at hc
        simp only at hc
        cases h2 : decodeList Input.decode p.1.val p.2 with
        | error e => rw [h2] at hc; exact absurd hc (by simp)
        | ok pi =>
          rw [h2] at hc
          simp only at hc
          cases h3 : VarInt.decode pi.2 with
          | error e => rw [h3] at hc; exact absurd hc (by simp)
          | ok q =>
            rw [h3] at hc
            simp only at hc
            cases h4 : decodeList Output.decode q.1.val q.2 with
            | error e => rw [h4] at hc; exact absurd hc (by simp)
            | ok po =>
              rw [h4] at hc
              simp only at hc
              by_cases h5 : po.2.length < 4
              · rw [if_pos h5] at hc; exact absurd hc (by simp)
              · rw [if_neg h5] at hc; exact absurd hc (by simp)
    · intro hl
      unfold Transaction.decode
      rw [if_pos hl]
  · intro b e hlen he
    unfold Transaction.decode
    rw [if_neg (by omega), he]
  · intro b n b2 e hlen hn he
    unfold Transaction.decode
    rw [if_neg (by omega), hn]
    simp only
    rw [he]
  · intro b n b2 ins b3 e hlen hn hins he
    unfold Transaction.decode
    rw [if_neg (by omega), hn]
    simp only
    rw [hins]
    simp only
    rw [he]
  · intro b n b2 ins b3 m b4 e hlen hn hins hm he
    unfold Transaction.decode
    rw [if_neg (by omega), hn]
    simp only
    rw [hins]
    simp only
    rw [hm]
    simp only
    rw [he]
  · intro b
    constructor
    · intro hc
      unfold Transaction.decode at hc
      by_cases hl : b.length < 4
      · rw [if_pos hl] at hc; exact absurd hc (by simp)
      · rw [if_neg hl] at hc
        cases h1 : VarInt.decode (b.drop 4) with
        | error e => rw [h1] at hc; exact absurd hc (by simp)
        | ok p =>
          rw [h1] at hc
          simp only at hc
          cases h2 : decodeList Input.decode p.1.val p.2 with
          | error e => rw [h2] at hc; exact absurd hc (by simp)
          | ok pi =>
            rw [h2] at hc
            simp only at hc
            cases h3 : VarInt.decode pi.2 with
            | error e => rw [h3] at hc; exact absurd hc (by simp)
            | ok q =>
              rw [h3] at hc
              simp only at hc
              cases h4 : decodeList Output.decode q.1.val q.2 with
              | error e => rw [h4] at hc; exact absurd hc (by simp)
              | ok po =>
                rw [h4] at hc
                simp only at hc
                by_cases h5 : po.2.length < 4
                · exact ⟨p.1, p.2, pi.1, pi.2, q.1, q.2, po.1, po.2,
                    by omega, by simp [h1], by simp [h2], by simp [h3], by simp [h4], h5⟩
                · rw [if_neg h5] at hc; exact absurd hc (by simp)
    · rintro ⟨n, b2, ins, b3, m, b4, outs, b5, hlen, h1, h2, h3, h4, h5⟩
      unfold Transaction.decode
      rw [if_neg (by omega), h1]
      simp only
      rw [h2]
      simp only
      rw [h3]
      simp only
      rw [h4]
      simp only
      rw [if_pos h5]

/-- Witness for C9 at concrete buffers: a truncated input-count VarInt
is wrapped as `InputCount(Truncated)`, and a 10-byte empty transaction
missing one lock-time byte fails with `LockTimeTooShort`. -/
theorem decode_error_taxonomy_witness :
    Transaction.decode [0, 0, 0, 0, 0xFD, 0] = .error (.inputCount .truncated) ∧
    Transaction.decode [0, 0, 0, 0, 0, 0, 9, 9, 9] = .error .lockTimeTooShort :=
  ⟨decode_error_taxonomy.2.1 [0, 0, 0, 0, 0xFD, 0] .truncated (by decide) (by decide),
   (decode_error_taxonomy.2.2.2.2.2 [0, 0, 0, 0, 0, 0, 9, 9, 9]).2
     ⟨⟨0⟩, [0, 9, 9, 9], [], [0, 9, 9, 9], ⟨0⟩, [9, 9, 9], [], [9, 9, 9],
      by decide, by decide, by decide, by decide, by decide, by decide⟩⟩
